import Mathlib

/-!
Verification of the counter data-access layer (`app/counter.py`, `app/models.py`).

The persistent store is modelled as a list of `Counter` records plus an
autoincrement id source, mirroring the single `counters` table keyed by the
unique `name` column.  `datetime.utcnow`, used by the `default_factory` of the
two timestamp columns, is modelled by an explicit `now : Nat` argument to each
operation: the value the clock would return at the time of the call.
-/

namespace CounterApp

/-- One row of the `counters` table (`app/models.py`, class `Counter`):
`id` primary key, `name` unique, `value` a Python `int` (arbitrary precision,
hence `Int`), `created_at` / `updated_at` timestamps. -/
structure Counter where
  id : Nat
  name : String
  value : Int
  created_at : Nat
  updated_at : Nat
deriving Repr, DecidableEq

/-- The persistent store: the rows of the `counters` table in insertion order,
and the next id the database will assign to an inserted row. -/
structure Store where
  counters : List Counter
  nextId : Nat
deriving Repr, DecidableEq

/-- A fresh (empty) store, as produced by `reset_db`. -/
def freshStore : Store := ⟨[], 1⟩

/-- `session.commit()` after `session.add(c)` for a row `c` that is already in
the table: the database updates the row with `c`'s primary key. -/
def commitList (cs : List Counter) (c : Counter) : List Counter :=
  cs.map (fun d => if d.id = c.id then c else d)

/-- Commit an updated row into the store. -/
def commit (s : Store) (c : Counter) : Store :=
  { s with counters := commitList s.counters c }

/-- `get_counter(session, name)` (`app/counter.py`, lines 10–21):
`select(Counter).where(Counter.name == name)` then `.first()`; if no row is
found, build `Counter(name=name, value=0)` (timestamps from
`datetime.utcnow`), add it and commit, the database assigning the next id. -/
def get_counter (s : Store) (now : Nat) (name : String := "default") :
    Counter × Store :=
  match s.counters.find? (fun c => c.name == name) with
  | some c => (c, s)
  | none =>
    let c : Counter :=
      { id := s.nextId, name := name, value := 0
        created_at := now, updated_at := now }
    (c, { counters := s.counters ++ [c], nextId := s.nextId + 1 })

/-- `increment_counter(session, name)` (`app/counter.py`, lines 24–30):
`counter = get_counter(...)`, `counter.value += 1`, add, commit, return
`counter.value`. -/
def increment_counter (s : Store) (now : Nat) (name : String := "default") :
    Int × Store :=
  let p := get_counter s now name
  let c := { p.1 with value := p.1.value + 1 }
  (c.value, commit p.2 c)

/-- `decrement_counter(session, name)` (`app/counter.py`, lines 33–39):
same as increment but `counter.value -= 1`. -/
def decrement_counter (s : Store) (now : Nat) (name : String := "default") :
    Int × Store :=
  let p := get_counter s now name
  let c := { p.1 with value := p.1.value - 1 }
  (c.value, commit p.2 c)

/-- `reset_counter(session, name)` (`app/counter.py`, lines 42–48):
`counter.value = 0`, add, commit, return `counter.value`. -/
def reset_counter (s : Store) (now : Nat) (name : String := "default") :
    Int × Store :=
  let p := get_counter s now name
  let c := { p.1 with value := 0 }
  (c.value, commit p.2 c)

/-- The row stored under `name`, if any. -/
def findName (s : Store) (name : String) : Option Counter :=
  s.counters.find? (fun c => c.name == name)

/-- The row `Counter(name=name, value=0)` that `get_counter` inserts when the
lookup comes back empty, with the id the database assigns at commit. -/
def newCounter (s : Store) (now : Nat) (name : String) : Counter :=
  { id := s.nextId, name := name, value := 0
    created_at := now, updated_at := now }

/-- The stored value of the counter `name`: its row's `value`, or `0` when the
counter is absent (the value `get_counter` would create it with). -/
def valueOf (s : Store) (name : String) : Int :=
  match findName s name with
  | some c => c.value
  | none => 0

/-- Database invariants guaranteed by the schema: primary keys are unique,
`name` carries a unique constraint, and the autoincrement source is ahead of
every assigned id. -/
def Store.WF (s : Store) : Prop :=
  (s.counters.map Counter.id).Nodup ∧
  (s.counters.map Counter.name).Nodup ∧
  ∀ c ∈ s.counters, c.id < s.nextId

instance (s : Store) : Decidable s.WF := by
  unfold Store.WF
  infer_instance

/-- One user action on a single named counter, as in §8 of the spec. -/
inductive Op where
  | inc
  | dec
deriving Repr, DecidableEq

/-- The algebraic step an action contributes. -/
def opDelta : Op → Int
  | .inc => 1
  | .dec => -1

/-- The algebraic sum of the +1/−1 steps of a sequence of actions. -/
def sumDeltas (ops : List Op) : Int := (ops.map opDelta).sum

/-- Run one action against the store. -/
def stepOp (s : Store) (now : Nat) (name : String) : Op → Int × Store
  | .inc => increment_counter s now name
  | .dec => decrement_counter s now name

/-- Run a sequence of actions sequentially (no interleaving). -/
def runOps (s : Store) (now : Nat) (name : String) : List Op → Store
  | [] => s
  | op :: rest => runOps (stepOp s now name op).2 now name rest

/-- Modelled from the spec: §7's error taxonomy.  The persistence layer
(`app/database.py`, not under `src/`) can fail a commit round trip
(connection loss, constraint violation, etc.); such a failure surfaces as the
single `StorageError` kind. -/
inductive StorageError where
  | storageError
deriving Repr, DecidableEq

/-- Modelled from the spec: a commit round trip either persists the pending
changes atomically or fails, the failed transaction rolling back so the store
is as it was before that commit.  `plan` supplies the outcome of each
successive round trip (`true` = that commit fails); an exhausted plan means
every further commit succeeds (normal persistence availability). -/
def takeFail : List Bool → Bool × List Bool
  | [] => (false, [])
  | b :: rest => (b, rest)

/-- `get_counter` against the fallible persistence layer.  The source has no
`try`/`except`: a failure of the creation commit propagates.  On failure the
store is unchanged (the transaction that held the `add` rolled back), so only
the error is reported; on success the result and the remaining plan are
returned. -/
def get_counterE (s : Store) (now : Nat) (name : String) (plan : List Bool) :
    Except StorageError (Counter × Store) × List Bool :=
  match s.counters.find? (fun c => c.name == name) with
  | some c => (.ok (c, s), plan)
  | none =>
    let c : Counter :=
      { id := s.nextId, name := name, value := 0
        created_at := now, updated_at := now }
    let t := takeFail plan
    if t.1 then (.error .storageError, t.2)
    else (.ok (c, { counters := s.counters ++ [c], nextId := s.nextId + 1 }), t.2)

/-- `increment_counter` against the fallible persistence layer.  The pair's
second component is the persistent store after the call: a failed creation
commit leaves `s`, a failed mutation commit leaves the store committed by
`get_counter` (including a counter it created). -/
def increment_counterE (s : Store) (now : Nat) (name : String)
    (plan : List Bool) : Except StorageError Int × Store :=
  match get_counterE s now name plan with
  | (.error e, _) => (.error e, s)
  | (.ok (c, s1), plan1) =>
    let c' := { c with value := c.value + 1 }
    let t := takeFail plan1
    if t.1 then (.error .storageError, s1)
    else (.ok c'.value, commit s1 c')

/-- `decrement_counter` against the fallible persistence layer. -/
def decrement_counterE (s : Store) (now : Nat) (name : String)
    (plan : List Bool) : Except StorageError Int × Store :=
  match get_counterE s now name plan with
  | (.error e, _) => (.error e, s)
  | (.ok (c, s1), plan1) =>
    let c' := { c with value := c.value - 1 }
    let t := takeFail plan1
    if t.1 then (.error .storageError, s1)
    else (.ok c'.value, commit s1 c')

/-- `reset_counter` against the fallible persistence layer. -/
def reset_counterE (s : Store) (now : Nat) (name : String)
    (plan : List Bool) : Except StorageError Int × Store :=
  match get_counterE s now name plan with
  | (.error e, _) => (.error e, s)
  | (.ok (c, s1), plan1) =>
    let c' := { c with value := 0 }
    let t := takeFail plan1
    if t.1 then (.error .storageError, s1)
    else (.ok c'.value, commit s1 c')

/-- The three mutating operations, for statements quantifying over all of
them. -/
inductive MutOp where
  | inc
  | dec
  | reset
deriving Repr, DecidableEq

/-- Dispatch a mutating operation to its fallible implementation. -/
def runMutE (op : MutOp) (s : Store) (now : Nat) (name : String)
    (plan : List Bool) : Except StorageError Int × Store :=
  match op with
  | .inc => increment_counterE s now name plan
  | .dec => decrement_counterE s now name plan
  | .reset => reset_counterE s now name plan

/-! ### Helper lemmas about `commitList` -/

theorem commitList_cons (d : Counter) (rest : List Counter) (c : Counter) :
    commitList (d :: rest) c
      = (if d.id = c.id then c else d) :: commitList rest c := rfl

theorem commitList_map_id (cs : List Counter) (c : Counter) :
    (commitList cs c).map Counter.id = cs.map Counter.id := by
  induction cs with
  | nil => rfl
  | cons d rest ih =>
    rw [commitList_cons, List.map_cons, List.map_cons, ih]
    by_cases hd : d.id = c.id
    · rw [if_pos hd, hd]
    · rw [if_neg hd]

theorem commitList_map_name (cs : List Counter) (c : Counter)
    (hall : ∀ d ∈ cs, d.id = c.id → d.name = c.name) :
    (commitList cs c).map Counter.name = cs.map Counter.name := by
  induction cs with
  | nil => rfl
  | cons d rest ih =>
    rw [commitList_cons, List.map_cons, List.map_cons,
      ih fun e he hid => hall e (List.mem_cons_of_mem d he) hid]
    by_cases hd : d.id = c.id
    · rw [if_pos hd, hall d (List.mem_cons_self d rest) hd]
    · rw [if_neg hd]

theorem commitList_id_lt (cs : List Counter) (c : Counter) (k : Nat)
    (hlt : ∀ d ∈ cs, d.id < k) : ∀ e ∈ commitList cs c, e.id < k := by
  intro e he
  have hmem : e.id ∈ (commitList cs c).map Counter.id :=
    List.mem_map_of_mem Counter.id he
  rw [commitList_map_id] at hmem
  obtain ⟨d, hd, hde⟩ := List.mem_map.mp hmem
  exact hde ▸ hlt d hd

theorem find?_commitList_other (cs : List Counter) (c : Counter)
    (q : Counter → Bool) (hq : q c = false)
    (hall : ∀ d ∈ cs, d.id = c.id → q d = false) :
    (commitList cs c).find? q = cs.find? q := by
  induction cs with
  | nil => rfl
  | cons d rest ih =>
    have ih' := ih fun e he hid => hall e (List.mem_cons_of_mem d he) hid
    rw [commitList_cons]
    by_cases hd : d.id = c.id
    · have hqd : q d = false := hall d (List.mem_cons_self d rest) hd
      rw [if_pos hd]
      simp only [List.find?_cons, hq, hqd]
      exact ih'
    · rw [if_neg hd]
      cases hqd : q d with
      | true => simp only [List.find?_cons, hqd]
      | false =>
        simp only [List.find?_cons, hqd]
        exact ih'

theorem find?_commitList_self (cs : List Counter) (n : String) (c c' : Counter)
    (hfind : cs.find? (fun d => d.name == n) = some c)
    (hid : c'.id = c.id) (hname : c'.name = c.name)
    (hnodup : (cs.map Counter.id).Nodup) :
    (commitList cs c').find? (fun d => d.name == n) = some c' := by
  induction cs with
  | nil => simp at hfind
  | cons d rest ih =>
    rw [List.map_cons, List.nodup_cons] at hnodup
    rw [List.find?_cons] at hfind
    cases hd : (d.name == n : Bool) with
    | true =>
      rw [hd] at hfind
      have hdc : d = c := by injection hfind
      have hnm : (c'.name == n : Bool) = true := by
        rw [hname, ← hdc]; exact hd
      rw [commitList_cons, if_pos (by rw [hdc, hid]), List.find?_cons, hnm]
    | false =>
      rw [hd] at hfind
      have hcmem : c ∈ rest := List.mem_of_find?_eq_some hfind
      have hdid : d.id ≠ c.id := by
        intro hcon
        exact hnodup.1 (hcon ▸ List.mem_map_of_mem Counter.id hcmem)
      rw [commitList_cons, if_neg (fun hcon => hdid (hid ▸ hcon)),
        List.find?_cons, hd]
      exact ih hfind hnodup.2

theorem counter_eq_of_id_eq (cs : List Counter)
    (hnodup : (cs.map Counter.id).Nodup) (a b : Counter)
    (ha : a ∈ cs) (hb : b ∈ cs) (hid : a.id = b.id) : a = b :=
  List.inj_on_of_nodup_map hnodup ha hb hid

theorem nodup_append_single {α : Type} (l : List α) (a : α)
    (hl : l.Nodup) (ha : a ∉ l) : (l ++ [a]).Nodup := by
  induction l with
  | nil => simp
  | cons b rest ih =>
    rw [List.nodup_cons] at hl
    rw [List.mem_cons] at ha
    push_neg at ha
    rw [List.cons_append, List.nodup_cons]
    refine ⟨?_, ih hl.2 ha.2⟩
    rw [List.mem_append]
    push_neg
    exact ⟨hl.1, fun hba => ha.1 (List.mem_singleton.mp hba).symm⟩

/-! ### Behaviour of `get_counter` -/

theorem get_counter_of_found (s : Store) (now : Nat) (name : String)
    (c : Counter) (h : findName s name = some c) :
    get_counter s now name = (c, s) := by
  unfold findName at h
  unfold get_counter
  rw [h]

theorem get_counter_of_absent (s : Store) (now : Nat) (name : String)
    (h : findName s name = none) :
    get_counter s now name
      = (newCounter s now name,
         { counters := s.counters ++ [newCounter s now name]
           nextId := s.nextId + 1 }) := by
  unfold findName at h
  unfold get_counter
  rw [h]
  rfl

theorem get_counter_fst_value (s : Store) (now : Nat) (name : String) :
    (get_counter s now name).1.value = valueOf s name := by
  unfold valueOf
  cases h : findName s name with
  | some c => rw [get_counter_of_found s now name c h]
  | none => rw [get_counter_of_absent s now name h]; rfl

theorem get_counter_fst_name (s : Store) (now : Nat) (name : String) :
    (get_counter s now name).1.name = name := by
  cases h : findName s name with
  | some c =>
    rw [get_counter_of_found s now name c h]
    unfold findName at h
    have hbeq := List.find?_some h
    simpa using hbeq
  | none => rw [get_counter_of_absent s now name h]; rfl

theorem findName_get_counter (s : Store) (now : Nat) (name : String) :
    findName (get_counter s now name).2 name
      = some (get_counter s now name).1 := by
  cases h : findName s name with
  | some c => rw [get_counter_of_found s now name c h]; exact h
  | none =>
    rw [get_counter_of_absent s now name h]
    unfold findName at h ⊢
    simp [List.find?_append, h, newCounter]

theorem findName_get_counter_other (s : Store) (now : Nat) (name n' : String)
    (hne : n' ≠ name) :
    findName (get_counter s now name).2 n' = findName s n' := by
  cases h : findName s name with
  | some c => rw [get_counter_of_found s now name c h]
  | none =>
    rw [get_counter_of_absent s now name h]
    unfold findName
    simp [List.find?_append, newCounter, Ne.symm hne]

theorem WF_get_counter (s : Store) (now : Nat) (name : String) (h : s.WF) :
    ((get_counter s now name).2).WF := by
  cases hc : findName s name with
  | some c => rw [get_counter_of_found s now name c hc]; exact h
  | none =>
    rw [get_counter_of_absent s now name hc]
    obtain ⟨hids, hnames, hlt⟩ := h
    unfold findName at hc
    rw [List.find?_eq_none] at hc
    refine ⟨?_, ?_, ?_⟩
    · rw [List.map_append]
      refine nodup_append_single _ _ hids ?_
      intro hmem
      obtain ⟨d, hd, hdeq⟩ := List.mem_map.mp hmem
      have : (newCounter s now name).id = s.nextId := rfl
      rw [this] at hdeq
      exact absurd hdeq (Nat.ne_of_lt (hlt d hd))
    · rw [List.map_append]
      refine nodup_append_single _ _ hnames ?_
      intro hmem
      obtain ⟨d, hd, hdeq⟩ := List.mem_map.mp hmem
      have hname : (newCounter s now name).name = name := rfl
      rw [hname] at hdeq
      exact hc d hd (by simp [hdeq])
    · intro c hmem
      rw [List.mem_append] at hmem
      cases hmem with
      | inl hin => exact Nat.lt_succ_of_lt (hlt c hin)
      | inr hin =>
        rw [List.mem_singleton.mp hin]
        exact Nat.lt_succ_self _

/-! ### Behaviour of committing a value update after `get_counter` -/

theorem findName_commit_get (s : Store) (now : Nat) (name : String) (v : Int)
    (h : s.WF) :
    findName (commit (get_counter s now name).2
        { (get_counter s now name).1 with value := v }) name
      = some { (get_counter s now name).1 with value := v } := by
  have h1 := findName_get_counter s now name
  unfold findName at h1 ⊢
  exact find?_commitList_self _ name _ _ h1 rfl rfl
    (WF_get_counter s now name h).1

theorem WF_commit_get (s : Store) (now : Nat) (name : String) (v : Int)
    (h : s.WF) :
    (commit (get_counter s now name).2
        { (get_counter s now name).1 with value := v }).WF := by
  obtain ⟨hids, hnames, hlt⟩ := WF_get_counter s now name h
  have h1 := findName_get_counter s now name
  unfold findName at h1
  have hmem : (get_counter s now name).1 ∈ (get_counter s now name).2.counters :=
    List.mem_of_find?_eq_some h1
  refine ⟨?_, ?_, ?_⟩
  · unfold commit
    rw [commitList_map_id]
    exact hids
  · unfold commit
    rw [commitList_map_name]
    · exact hnames
    · intro d hd hdid
      have hdc : d = (get_counter s now name).1 :=
        counter_eq_of_id_eq _ hids d _ hd hmem hdid
      rw [hdc]
  · unfold commit
    exact commitList_id_lt _ _ _ hlt

theorem findName_commit_get_other (s : Store) (now : Nat) (name n' : String)
    (v : Int) (h : s.WF) (hne : n' ≠ name) :
    findName (commit (get_counter s now name).2
        { (get_counter s now name).1 with value := v }) n'
      = findName s n' := by
  have hids := (WF_get_counter s now name h).1
  have h1 := findName_get_counter s now name
  unfold findName at h1
  have hmem : (get_counter s now name).1 ∈ (get_counter s now name).2.counters :=
    List.mem_of_find?_eq_some h1
  have hname1 := get_counter_fst_name s now name
  have hq : (({ (get_counter s now name).1 with value := v } :
      Counter).name == n') = false := by
    simp only [hname1]
    simp [Ne.symm hne]
  rw [← findName_get_counter_other s now name n' hne]
  unfold findName commit
  refine find?_commitList_other _ _ _ hq ?_
  intro d hd hdid
  have hdc : d = (get_counter s now name).1 :=
    counter_eq_of_id_eq _ hids d _ hd hmem hdid
  rw [hdc]
  simp only [hname1]
  simp [Ne.symm hne]

/-! ### The three mutating operations, unfolded to get-then-commit form -/

theorem increment_counter_eq (s : Store) (now : Nat) (name : String) :
    increment_counter s now name
      = ((get_counter s now name).1.value + 1,
         commit (get_counter s now name).2
           { (get_counter s now name).1 with
             value := (get_counter s now name).1.value + 1 }) := rfl

theorem decrement_counter_eq (s : Store) (now : Nat) (name : String) :
    decrement_counter s now name
      = ((get_counter s now name).1.value - 1,
         commit (get_counter s now name).2
           { (get_counter s now name).1 with
             value := (get_counter s now name).1.value - 1 }) := rfl

theorem reset_counter_eq (s : Store) (now : Nat) (name : String) :
    reset_counter s now name
      = (0,
         commit (get_counter s now name).2
           { (get_counter s now name).1 with value := 0 }) := rfl

theorem increment_fst (s : Store) (now : Nat) (name : String) :
    (increment_counter s now name).1 = valueOf s name + 1 := by
  rw [increment_counter_eq, get_counter_fst_value]

theorem decrement_fst (s : Store) (now : Nat) (name : String) :
    (decrement_counter s now name).1 = valueOf s name - 1 := by
  rw [decrement_counter_eq, get_counter_fst_value]

theorem reset_fst (s : Store) (now : Nat) (name : String) :
    (reset_counter s now name).1 = 0 := by
  rw [reset_counter_eq]

theorem valueOf_increment (s : Store) (now : Nat) (name : String) (h : s.WF) :
    valueOf (increment_counter s now name).2 name = valueOf s name + 1 := by
  rw [increment_counter_eq]
  unfold valueOf
  rw [findName_commit_get s now name _ h]
  simp [get_counter_fst_value s now name]
  rfl

theorem valueOf_decrement (s : Store) (now : Nat) (name : String) (h : s.WF) :
    valueOf (decrement_counter s now name).2 name = valueOf s name - 1 := by
  rw [decrement_counter_eq]
  unfold valueOf
  rw [findName_commit_get s now name _ h]
  simp [get_counter_fst_value s now name]
  rfl

theorem valueOf_reset (s : Store) (now : Nat) (name : String) (h : s.WF) :
    valueOf (reset_counter s now name).2 name = 0 := by
  rw [reset_counter_eq]
  unfold valueOf
  rw [findName_commit_get s now name _ h]

theorem WF_increment (s : Store) (now : Nat) (name : String) (h : s.WF) :
    ((increment_counter s now name).2).WF := by
  rw [increment_counter_eq]
  exact WF_commit_get s now name _ h

theorem WF_decrement (s : Store) (now : Nat) (name : String) (h : s.WF) :
    ((decrement_counter s now name).2).WF := by
  rw [decrement_counter_eq]
  exact WF_commit_get s now name _ h

theorem WF_reset (s : Store) (now : Nat) (name : String) (h : s.WF) :
    ((reset_counter s now name).2).WF := by
  rw [reset_counter_eq]
  exact WF_commit_get s now name _ h

theorem findName_increment_other (s : Store) (now : Nat) (name n' : String)
    (h : s.WF) (hne : n' ≠ name) :
    findName (increment_counter s now name).2 n' = findName s n' := by
  rw [increment_counter_eq]
  exact findName_commit_get_other s now name n' _ h hne

theorem findName_decrement_other (s : Store) (now : Nat) (name n' : String)
    (h : s.WF) (hne : n' ≠ name) :
    findName (decrement_counter s now name).2 n' = findName s n' := by
  rw [decrement_counter_eq]
  exact findName_commit_get_other s now name n' _ h hne

theorem findName_reset_other (s : Store) (now : Nat) (name n' : String)
    (h : s.WF) (hne : n' ≠ name) :
    findName (reset_counter s now name).2 n' = findName s n' := by
  rw [reset_counter_eq]
  exact findName_commit_get_other s now name n' _ h hne

/-! ### Sequences of increments and decrements -/

theorem valueOf_runOps (now : Nat) (name : String) (ops : List Op) :
    ∀ s : Store, s.WF →
      (runOps s now name ops).WF ∧
      valueOf (runOps s now name ops) name = valueOf s name + sumDeltas ops := by
  induction ops with
  | nil =>
    intro s h
    refine ⟨h, ?_⟩
    unfold runOps sumDeltas
    simp
  | cons op rest ih =>
    intro s h
    cases op with
    | inc =>
      have hstep : runOps s now name (.inc :: rest)
          = runOps (increment_counter s now name).2 now name rest := rfl
      rw [hstep]
      obtain ⟨hwf, hval⟩ := ih _ (WF_increment s now name h)
      refine ⟨hwf, ?_⟩
      rw [hval, valueOf_increment s now name h]
      unfold sumDeltas opDelta
      rw [List.map_cons, List.sum_cons]
      ring
    | dec =>
      have hstep : runOps s now name (.dec :: rest)
          = runOps (decrement_counter s now name).2 now name rest := rfl
      rw [hstep]
      obtain ⟨hwf, hval⟩ := ih _ (WF_decrement s now name h)
      refine ⟨hwf, ?_⟩
      rw [hval, valueOf_decrement s now name h]
      unfold sumDeltas opDelta
      rw [List.map_cons, List.sum_cons]
      ring

theorem sumDeltas_replicate_dec (k : Nat) :
    sumDeltas (List.replicate k Op.dec) = -(k : Int) := by
  induction k with
  | zero => rfl
  | succ n ih =>
    rw [List.replicate_succ]
    unfold sumDeltas at ih ⊢
    rw [List.map_cons, List.sum_cons, ih]
    simp only [opDelta]
    push_cast
    ring

/-! ### The fallible persistence layer -/

theorem takeFail_fst_allOk (plan : List Bool) (hok : ∀ b ∈ plan, b = false) :
    (takeFail plan).1 = false := by
  cases plan with
  | nil => rfl
  | cons b rest => exact hok b (List.mem_cons_self b rest)

theorem takeFail_snd_allOk (plan : List Bool) (hok : ∀ b ∈ plan, b = false) :
    ∀ b ∈ (takeFail plan).2, b = false := by
  cases plan with
  | nil => intro b hb; simp [takeFail] at hb
  | cons x rest => intro b hb; exact hok b (List.mem_cons_of_mem x hb)

theorem get_counterE_allOk (s : Store) (now : Nat) (name : String)
    (plan : List Bool) (hok : ∀ b ∈ plan, b = false) :
    get_counterE s now name plan
      = (.ok (get_counter s now name), (get_counterE s now name plan).2) := by
  unfold get_counterE get_counter
  cases hfind : s.counters.find? (fun c => c.name == name) with
  | some c => rfl
  | none =>
    have htf : (takeFail plan).1 = false := takeFail_fst_allOk plan hok
    simp [htf]

theorem increment_counterE_allOk (s : Store) (now : Nat) (name : String)
    (plan : List Bool) (hok : ∀ b ∈ plan, b = false) :
    increment_counterE s now name plan
      = (.ok (increment_counter s now name).1,
         (increment_counter s now name).2) := by
  unfold increment_counterE increment_counter get_counterE get_counter
  cases hfind : s.counters.find? (fun c => c.name == name) with
  | some c =>
    have htf : (takeFail plan).1 = false := takeFail_fst_allOk plan hok
    simp [htf]
  | none =>
    have htf : (takeFail plan).1 = false := takeFail_fst_allOk plan hok
    have htf2 : (takeFail (takeFail plan).2).1 = false :=
      takeFail_fst_allOk _ (takeFail_snd_allOk plan hok)
    simp [htf, htf2]

theorem decrement_counterE_allOk (s : Store) (now : Nat) (name : String)
    (plan : List Bool) (hok : ∀ b ∈ plan, b = false) :
    decrement_counterE s now name plan
      = (.ok (decrement_counter s now name).1,
         (decrement_counter s now name).2) := by
  unfold decrement_counterE decrement_counter get_counterE get_counter
  cases hfind : s.counters.find? (fun c => c.name == name) with
  | some c =>
    have htf : (takeFail plan).1 = false := takeFail_fst_allOk plan hok
    simp [htf]
  | none =>
    have htf : (takeFail plan).1 = false := takeFail_fst_allOk plan hok
    have htf2 : (takeFail (takeFail plan).2).1 = false :=
      takeFail_fst_allOk _ (takeFail_snd_allOk plan hok)
    simp [htf, htf2]

theorem reset_counterE_allOk (s : Store) (now : Nat) (name : String)
    (plan : List Bool) (hok : ∀ b ∈ plan, b = false) :
    reset_counterE s now name plan
      = (.ok (reset_counter s now name).1,
         (reset_counter s now name).2) := by
  unfold reset_counterE reset_counter get_counterE get_counter
  cases hfind : s.counters.find? (fun c => c.name == name) with
  | some c =>
    have htf : (takeFail plan).1 = false := takeFail_fst_allOk plan hok
    simp [htf]
  | none =>
    have htf : (takeFail plan).1 = false := takeFail_fst_allOk plan hok
    have htf2 : (takeFail (takeFail plan).2).1 = false :=
      takeFail_fst_allOk _ (takeFail_snd_allOk plan hok)
    simp [htf, htf2]

theorem get_counterE_fail_first (s : Store) (now : Nat) (name : String)
    (rest : List Bool) (habs : findName s name = none) :
    (get_counterE s now name (true :: rest)).1 = .error .storageError := by
  unfold findName at habs
  unfold get_counterE
  rw [habs]
  rfl

theorem increment_counterE_fail_first (s : Store) (now : Nat) (name : String)
    (rest : List Bool) :
    (increment_counterE s now name (true :: rest)).1
      = .error .storageError := by
  unfold increment_counterE get_counterE
  cases hfind : s.counters.find? (fun c => c.name == name) with
  | some c => simp [takeFail]
  | none => simp [takeFail]

theorem decrement_counterE_fail_first (s : Store) (now : Nat) (name : String)
    (rest : List Bool) :
    (decrement_counterE s now name (true :: rest)).1
      = .error .storageError := by
  unfold decrement_counterE get_counterE
  cases hfind : s.counters.find? (fun c => c.name == name) with
  | some c => simp [takeFail]
  | none => simp [takeFail]

theorem reset_counterE_fail_first (s : Store) (now : Nat) (name : String)
    (rest : List Bool) :
    (reset_counterE s now name (true :: rest)).1 = .error .storageError := by
  unfold reset_counterE get_counterE
  cases hfind : s.counters.find? (fun c => c.name == name) with
  | some c => simp [takeFail]
  | none => simp [takeFail]

/-! ### The claims -/

/-- Claim C1: over any sequence of increment/decrement calls on a single name,
run sequentially, the final stored value is the starting value (0 for a fresh
counter, the pre-seeded value otherwise) plus the algebraic sum of the +1/−1
steps; and on any well-formed store an increment call returns the previous
value plus 1 while a decrement call returns the previous value minus 1. -/
theorem increment_decrement_sequence_spec (s : Store) (now : Nat)
    (name : String) (ops : List Op) (h : s.WF) :
    valueOf (runOps s now name ops) name = valueOf s name + sumDeltas ops ∧
    (increment_counter s now name).1 = valueOf s name + 1 ∧
    (decrement_counter s now name).1 = valueOf s name - 1 :=
  ⟨(valueOf_runOps now name ops s h).2, increment_fst s now name,
   decrement_fst s now name⟩

/-- Witness for C1 at a fresh store and the sequence inc, inc, dec. -/
theorem increment_decrement_sequence_spec_witness :
    Store.WF freshStore ∧
    valueOf (runOps freshStore 0 "default" [Op.inc, Op.inc, Op.dec]) "default"
      = valueOf freshStore "default" + sumDeltas [Op.inc, Op.inc, Op.dec] :=
  ⟨by decide,
   (increment_decrement_sequence_spec freshStore 0 "default"
      [Op.inc, Op.inc, Op.dec] (by decide)).1⟩

/-- Claim C2: on a store with no counter of the given name, `get_counter`
creates and persists a counter with value 0 and returns it; calling it again
returns the very same record (same identity and value) and leaves the store
untouched, so no duplicate is created; the first call added exactly one row. -/
theorem getOrCreate_spec (s : Store) (now now2 : Nat) (name : String)
    (habs : findName s name = none) :
    (get_counter s now name).1.value = 0 ∧
    (get_counter s now name).1.name = name ∧
    findName (get_counter s now name).2 name
      = some (get_counter s now name).1 ∧
    get_counter (get_counter s now name).2 now2 name
      = ((get_counter s now name).1, (get_counter s now name).2) ∧
    (get_counter s now name).2.counters.length = s.counters.length + 1 := by
  refine ⟨?_, get_counter_fst_name s now name, findName_get_counter s now name,
    get_counter_of_found _ now2 name _ (findName_get_counter s now name), ?_⟩
  · rw [get_counter_fst_value]
    unfold valueOf
    rw [habs]
  · rw [get_counter_of_absent s now name habs]
    simp

/-- Witness for C2 on a fresh store and the name "x". -/
theorem getOrCreate_spec_witness :
    findName freshStore "x" = none ∧
    (get_counter freshStore 0 "x").1.value = 0 :=
  ⟨by decide, (getOrCreate_spec freshStore 0 1 "x" (by decide)).1⟩

/-- Claim C3: `reset_counter` returns 0 and leaves the named counter stored
with value 0, whatever its prior value; if the counter was absent it exists
afterwards. -/
theorem reset_spec (s : Store) (now : Nat) (name : String) (h : s.WF) :
    (reset_counter s now name).1 = 0 ∧
    valueOf (reset_counter s now name).2 name = 0 ∧
    (findName (reset_counter s now name).2 name).isSome = true := by
  refine ⟨reset_fst s now name, valueOf_reset s now name h, ?_⟩
  rw [reset_counter_eq, findName_commit_get s now name 0 h]
  rfl

/-- Witness for C3 at a counter pre-seeded with the negative value −5. -/
theorem reset_spec_witness :
    Store.WF ⟨[⟨1, "a", -5, 0, 0⟩], 2⟩ ∧
    valueOf (reset_counter ⟨[⟨1, "a", -5, 0, 0⟩], 2⟩ 7 "a").2 "a" = 0 :=
  ⟨by decide, (reset_spec ⟨[⟨1, "a", -5, 0, 0⟩], 2⟩ 7 "a" (by decide)).2.1⟩

/-- Claim C4: each of the four operations applied to a name leaves the row of
every other name completely unchanged (same record, all fields, and same
presence/absence): distinct names are independent counters. -/
theorem name_isolation_spec (s : Store) (now : Nat) (name n' : String)
    (h : s.WF) (hne : n' ≠ name) :
    findName (get_counter s now name).2 n' = findName s n' ∧
    findName (increment_counter s now name).2 n' = findName s n' ∧
    findName (decrement_counter s now name).2 n' = findName s n' ∧
    findName (reset_counter s now name).2 n' = findName s n' :=
  ⟨findName_get_counter_other s now name n' hne,
   findName_increment_other s now name n' h hne,
   findName_decrement_other s now name n' h hne,
   findName_reset_other s now name n' h hne⟩

/-- Witness for C4: incrementing "a" leaves the row of "b" unchanged. -/
theorem name_isolation_spec_witness :
    Store.WF ⟨[⟨1, "a", 3, 0, 0⟩, ⟨2, "b", 9, 0, 0⟩], 3⟩ ∧ "b" ≠ "a" ∧
    findName (increment_counter
        ⟨[⟨1, "a", 3, 0, 0⟩, ⟨2, "b", 9, 0, 0⟩], 3⟩ 4 "a").2 "b"
      = findName ⟨[⟨1, "a", 3, 0, 0⟩, ⟨2, "b", 9, 0, 0⟩], 3⟩ "b" :=
  ⟨by decide, by decide,
   (name_isolation_spec ⟨[⟨1, "a", 3, 0, 0⟩, ⟨2, "b", 9, 0, 0⟩], 3⟩ 4 "a" "b"
      (by decide) (by decide)).2.1⟩

/-- Claim C5: when every persistence round trip succeeds each operation
returns `.ok` with exactly the infallible behaviour (in particular
`get_counter` never fails under normal availability); when the first round
trip the operation performs fails, every operation reports
`.error .storageError` — even though the remaining plan is all-successes, so
any retry would have succeeded: the failure is propagated, not caught or
retried. -/
theorem storage_error_propagation_spec (s : Store) (now : Nat) (name : String)
    (plan : List Bool) (hok : ∀ b ∈ plan, b = false) :
    (get_counterE s now name plan).1 = .ok (get_counter s now name) ∧
    (increment_counterE s now name plan).1
      = .ok (increment_counter s now name).1 ∧
    (decrement_counterE s now name plan).1
      = .ok (decrement_counter s now name).1 ∧
    (reset_counterE s now name plan).1 = .ok (reset_counter s now name).1 ∧
    (increment_counterE s now name (true :: plan)).1
      = .error .storageError ∧
    (decrement_counterE s now name (true :: plan)).1
      = .error .storageError ∧
    (reset_counterE s now name (true :: plan)).1 = .error .storageError ∧
    (get_counterE freshStore now name (true :: plan)).1
      = .error .storageError := by
  refine ⟨?_, ?_, ?_, ?_, increment_counterE_fail_first s now name plan,
    decrement_counterE_fail_first s now name plan,
    reset_counterE_fail_first s now name plan,
    get_counterE_fail_first freshStore now name plan rfl⟩
  · rw [get_counterE_allOk s now name plan hok]
  · rw [increment_counterE_allOk s now name plan hok]
  · rw [decrement_counterE_allOk s now name plan hok]
  · rw [reset_counterE_allOk s now name plan hok]

/-- Witness for C5 with the empty (all-successes) plan. -/
theorem storage_error_propagation_spec_witness :
    (∀ b ∈ ([] : List Bool), b = false) ∧
    (increment_counterE freshStore 0 "w" (true :: ([] : List Bool))).1
      = .error .storageError :=
  ⟨by simp,
   (storage_error_propagation_spec freshStore 0 "w" [] (by simp)).2.2.2.2.1⟩

/-- Claim C6 is refuted at this input: on a fresh store, an increment of the
absent name "a" whose creation commit succeeds and whose mutation commit
fails reports a `StorageError` yet leaves the store holding the newly created
counter at value 0 — not the store as it was before the call. -/
theorem all_or_nothing_counterexample :
    (increment_counterE freshStore 0 "a" [false, true]).1
      = .error .storageError ∧
    (increment_counterE freshStore 0 "a" [false, true]).2 ≠ freshStore ∧
    ((increment_counterE freshStore 0 "a" [false, true]).2).counters.map
        (fun c => (c.name, c.value)) = [("a", 0)] :=
  ⟨rfl, by decide, rfl⟩

/-- Claim C6 amended: a failed operation leaves the persistent store either
exactly as it was before the call, or — only possible when the name was
previously absent, its creation commit succeeded and the later mutation
commit failed — as the original store extended with exactly the newly created
counter at value 0.  Operations are all-or-nothing per commit, not per
call. -/
theorem all_or_nothing_amended (s : Store) (now : Nat) (name : String)
    (plan : List Bool) (op : MutOp) (e : StorageError)
    (herr : (runMutE op s now name plan).1 = .error e) :
    (runMutE op s now name plan).2 = s ∨
    (findName s name = none ∧
     (runMutE op s now name plan).2
       = { counters := s.counters ++ [newCounter s now name]
           nextId := s.nextId + 1 }) := by
  cases op with
  | inc =>
    unfold runMutE at herr ⊢
    unfold increment_counterE get_counterE at herr ⊢
    cases hfind : s.counters.find? (fun c => c.name == name) with
    | some c =>
      cases htf : (takeFail plan).1 with
      | false => simp [hfind, htf] at herr
      | true => left; simp [hfind, htf]
    | none =>
      cases htf1 : (takeFail plan).1 with
      | true => left; simp [hfind, htf1]
      | false =>
        cases htf2 : (takeFail (takeFail plan).2).1 with
        | false => simp [hfind, htf1, htf2] at herr
        | true =>
          right
          refine ⟨?_, ?_⟩
          · unfold findName; rw [hfind]
          · simp [hfind, htf1, htf2, newCounter]
  | dec =>
    unfold runMutE at herr ⊢
    unfold decrement_counterE get_counterE at herr ⊢
    cases hfind : s.counters.find? (fun c => c.name == name) with
    | some c =>
      cases htf : (takeFail plan).1 with
      | false => simp [hfind, htf] at herr
      | true => left; simp [hfind, htf]
    | none =>
      cases htf1 : (takeFail plan).1 with
      | true => left; simp [hfind, htf1]
      | false =>
        cases htf2 : (takeFail (takeFail plan).2).1 with
        | false => simp [hfind, htf1, htf2] at herr
        | true =>
          right
          refine ⟨?_, ?_⟩
          · unfold findName; rw [hfind]
          · simp [hfind, htf1, htf2, newCounter]
  | reset =>
    unfold runMutE at herr ⊢
    unfold reset_counterE get_counterE at herr ⊢
    cases hfind : s.counters.find? (fun c => c.name == name) with
    | some c =>
      cases htf : (takeFail plan).1 with
      | false => simp [hfind, htf] at herr
      | true => left; simp [hfind, htf]
    | none =>
      cases htf1 : (takeFail plan).1 with
      | true => left; simp [hfind, htf1]
      | false =>
        cases htf2 : (takeFail (takeFail plan).2).1 with
        | false => simp [hfind, htf1, htf2] at herr
        | true =>
          right
          refine ⟨?_, ?_⟩
          · unfold findName; rw [hfind]
          · simp [hfind, htf1, htf2, newCounter]

/-- Witness for the amended C6 at a concrete failing increment. -/
theorem all_or_nothing_amended_witness :
    (runMutE MutOp.inc freshStore 0 "b" [false, true]).1
      = .error .storageError ∧
    ((runMutE MutOp.inc freshStore 0 "b" [false, true]).2 = freshStore ∨
     (findName freshStore "b" = none ∧
      (runMutE MutOp.inc freshStore 0 "b" [false, true]).2
        = { counters := freshStore.counters ++ [newCounter freshStore 0 "b"]
            nextId := freshStore.nextId + 1 })) :=
  ⟨rfl,
   all_or_nothing_amended freshStore 0 "b" [false, true] MutOp.inc
     .storageError rfl⟩

/-- Claim C7 is refuted at this input: the counter "a" is created at time 0,
then incremented at time 5; after the mutation its `updated_at` still holds
the creation time 0, not the mutation time 5 — the code never touches
`updated_at` after creation. -/
theorem timestamps_counterexample :
    (findName (increment_counter (get_counter freshStore 0 "a").2 5 "a").2
        "a").map Counter.updated_at = some 0 ∧
    (findName (increment_counter (get_counter freshStore 0 "a").2 5 "a").2
        "a").map Counter.updated_at ≠ some 5 :=
  ⟨rfl, by decide⟩

/-- Claim C7 amended: `created_at` and `updated_at` are both set (to the
current time) at creation; the mutations change only `value`, leaving
`created_at` — and also `updated_at` — exactly as they were. -/
theorem timestamps_amended (s : Store) (now : Nat) (name : String)
    (c : Counter) (h : s.WF) (hfound : findName s name = some c) :
    findName (increment_counter s now name).2 name
      = some { c with value := c.value + 1 } ∧
    findName (decrement_counter s now name).2 name
      = some { c with value := c.value - 1 } ∧
    findName (reset_counter s now name).2 name
      = some { c with value := 0 } ∧
    (∀ s2 : Store, findName s2 name = none →
      (get_counter s2 now name).1.created_at = now ∧
      (get_counter s2 now name).1.updated_at = now) := by
  have hg : get_counter s now name = (c, s) :=
    get_counter_of_found s now name c hfound
  refine ⟨?_, ?_, ?_, ?_⟩
  · have h1 := findName_commit_get s now name (c.value + 1) h
    rw [hg] at h1
    rw [increment_counter_eq, hg]
    exact h1
  · have h1 := findName_commit_get s now name (c.value - 1) h
    rw [hg] at h1
    rw [decrement_counter_eq, hg]
    exact h1
  · have h1 := findName_commit_get s now name 0 h
    rw [hg] at h1
    rw [reset_counter_eq, hg]
    exact h1
  · intro s2 habs2
    rw [get_counter_of_absent s2 now name habs2]
    exact ⟨rfl, rfl⟩

/-- Witness for the amended C7 at a counter created at time 3 and incremented
at time 9: the record keeps both timestamps. -/
theorem timestamps_amended_witness :
    Store.WF ⟨[⟨1, "a", 7, 3, 3⟩], 2⟩ ∧
    findName ⟨[⟨1, "a", 7, 3, 3⟩], 2⟩ "a" = some ⟨1, "a", 7, 3, 3⟩ ∧
    findName (increment_counter ⟨[⟨1, "a", 7, 3, 3⟩], 2⟩ 9 "a").2 "a"
      = some { (⟨1, "a", 7, 3, 3⟩ : Counter) with value := (7 : Int) + 1 } :=
  ⟨by decide, by decide,
   (timestamps_amended ⟨[⟨1, "a", 7, 3, 3⟩], 2⟩ 9 "a" ⟨1, "a", 7, 3, 3⟩
      (by decide) (by decide)).1⟩

/-- Claim C8: name comparison is exact-match and case-sensitive — from a
fresh store, incrementing "Test", "test" and "TEST" returns 1 each time and
leaves three distinct rows, each with value 1. -/
theorem case_sensitive_names_spec :
    (increment_counter freshStore 0 "Test").1 = 1 ∧
    (increment_counter (increment_counter freshStore 0 "Test").2
        0 "test").1 = 1 ∧
    (increment_counter (increment_counter
        (increment_counter freshStore 0 "Test").2 0 "test").2 0 "TEST").1
      = 1 ∧
    ((increment_counter (increment_counter
        (increment_counter freshStore 0 "Test").2 0 "test").2
        0 "TEST").2).counters.map (fun c => (c.name, c.value))
      = [("Test", 1), ("test", 1), ("TEST", 1)] := by
  decide

/-- Claim C9: values are unclamped signed integers — k decrements from a
fresh counter leave it at exactly −k, and an increment of a counter holding
999999 returns exactly 1000000; the model's `Int` matches Python's
arbitrary-precision `int`, so no wraparound can occur. -/
theorem no_clamping_spec (k : Nat) (s : Store) (now now2 : Nat)
    (name : String) (hv : valueOf s name = 999999) :
    valueOf (runOps freshStore now name (List.replicate k Op.dec)) name
      = -(k : Int) ∧
    (increment_counter s now2 name).1 = 1000000 := by
  constructor
  · rw [(valueOf_runOps now name (List.replicate k Op.dec) freshStore
      (by decide)).2]
    have hz : valueOf freshStore name = 0 := rfl
    rw [hz, sumDeltas_replicate_dec]
    ring
  · rw [increment_fst, hv]
    norm_num

/-- Witness for C9 with two decrements and a counter pre-seeded at 999999. -/
theorem no_clamping_spec_witness :
    valueOf ⟨[⟨1, "big", 999999, 0, 0⟩], 2⟩ "big" = 999999 ∧
    valueOf (runOps freshStore 0 "big" (List.replicate 2 Op.dec)) "big"
      = -((2 : Nat) : Int) :=
  ⟨by decide,
   (no_clamping_spec 2 ⟨[⟨1, "big", 999999, 0, 0⟩], 2⟩ 0 1 "big"
      (by decide)).1⟩

/-- Claim C10: an increment immediately followed by a decrement of the same
name (and the swapped order likewise) leaves the stored value equal to the
value `get_counter` would have returned beforehand — 0 when the counter was
absent. -/
theorem inc_dec_roundtrip_spec (s : Store) (n1 n2 n3 : Nat) (name : String)
    (h : s.WF) :
    valueOf (decrement_counter
        (increment_counter s n1 name).2 n2 name).2 name
      = (get_counter s n3 name).1.value ∧
    valueOf (increment_counter
        (decrement_counter s n1 name).2 n2 name).2 name
      = (get_counter s n3 name).1.value := by
  constructor
  · rw [valueOf_decrement _ n2 name (WF_increment s n1 name h),
      valueOf_increment s n1 name h, get_counter_fst_value]
    ring
  · rw [valueOf_increment _ n2 name (WF_decrement s n1 name h),
      valueOf_decrement s n1 name h, get_counter_fst_value]
    ring

/-- Witness for C10 from a fresh store on the name "r". -/
theorem inc_dec_roundtrip_spec_witness :
    Store.WF freshStore ∧
    valueOf (decrement_counter
        (increment_counter freshStore 0 "r").2 1 "r").2 "r"
      = (get_counter freshStore 2 "r").1.value :=
  ⟨by decide, (inc_dec_roundtrip_spec freshStore 0 1 2 "r" (by decide)).1⟩

end CounterApp
